import Mathlib

/-!
Shallow embedding of the activity-finder repository (src/main.py, src/scrape.py,
src/postcode.py, src/utils.py) and proofs about the claims of its specification.

Python strings are modelled as Lean `String` / `List Char`, Python `None` as
`Option.none`, floats (distances in km) as `ℚ` with the geocoding collaborator's
NaN result modelled as `none`, and a raised exception as `Except.error`.
External collaborators (HTTP fetching, HTML parsing, the geocoding database) are
passed in as function parameters, exactly at the interfaces the source consumes:
the hrefs found on the search page, the visible text fragments of a page, and
the postcode-pair distance query.
-/

/-- Python `s.startswith(p)` on character lists: `l` starts with `p`. -/
def listStartsWith : List Char → List Char → Bool
  | _, [] => true
  | [], _ :: _ => false
  | c :: l, p :: ps => c == p && listStartsWith l ps

/-- Python `needle in hay` substring test on character lists. -/
def containsSub (needle : List Char) : List Char → Bool
  | [] => listStartsWith [] needle
  | c :: t => listStartsWith (c :: t) needle || containsSub needle t

/-- Python `link.endswith('/')`. -/
def endsWithSlash (l : List Char) : Bool :=
  match l.getLast? with
  | some c => c == '/'
  | none => false

/-- Python `s.split('&')[0]`: the characters up to (excluding) the first `'&'`. -/
def upToAmp : List Char → List Char
  | [] => []
  | c :: rest => if c == '&' then [] else c :: upToAmp rest

/-- Hexadecimal digit test, for percent-decoding. -/
def isHexDigitC (c : Char) : Bool :=
  decide ('0' ≤ c ∧ c ≤ '9') || decide ('a' ≤ c ∧ c ≤ 'f') || decide ('A' ≤ c ∧ c ≤ 'F')

/-- Value of a hexadecimal digit. -/
def hexVal (c : Char) : Nat :=
  if '0' ≤ c ∧ c ≤ '9' then c.toNat - '0'.toNat
  else if 'a' ≤ c ∧ c ≤ 'f' then c.toNat - 'a'.toNat + 10
  else c.toNat - 'A'.toNat + 10

/-- Python `urllib.parse.unquote`: decode `%hh` escapes left to right, leaving
malformed escapes unchanged; decoded characters are not rescanned.  (Multi-byte
UTF-8 percent sequences are abstracted to one code point per escape, which is
exact on the ASCII links this program handles.) -/
def unquoteGo : Nat → List Char → List Char
  | 0, _ => []
  | fuel + 1, cs =>
    match cs with
    | '%' :: a :: b :: rest2 =>
      if isHexDigitC a && isHexDigitC b then
        Char.ofNat (16 * hexVal a + hexVal b) :: unquoteGo fuel rest2
      else '%' :: unquoteGo fuel (a :: b :: rest2)
    | c :: rest => c :: unquoteGo fuel rest
    | [] => []

/-- Entry point of the percent-decoder; the fuel starts at the list length,
which suffices because every step consumes at least one character. -/
def unquoteChars (cs : List Char) : List Char := unquoteGo cs.length cs

/-- The `is_sublink_of(sublink, link)` helper of `google_search_urls`
(src/scrape.py) / `urls_from_google_search` (src/main.py):
if `link` ends with `'/'` then `sublink.startswith(link)`,
else `sublink.startswith(link + '/')`. -/
def is_sublink_of (sublink link : String) : Bool :=
  if endsWithSlash link.data then listStartsWith sublink.data link.data
  else listStartsWith sublink.data (link.data ++ ['/'])

/-- One iteration of the kept-links update in `google_search_urls`
(src/scrape.py lines 71-88), from `if new_link in links` onward:
exact duplicates are discarded first; with `ignore_subdomains`, a new link that
is a sublink of a kept link is discarded, otherwise kept sublinks of the new
link are removed and the new link is appended. -/
def updateLinks (links : List String) (new_link : String) (ignore_subdomains : Bool) :
    List String :=
  if new_link ∈ links then links
  else if ignore_subdomains then
    if links.any (fun link => is_sublink_of new_link link) then links
    else links.filter (fun link => ! is_sublink_of link new_link) ++ [new_link]
  else links ++ [new_link]

/-- The per-href preprocessing of `google_search_urls`: keep hrefs starting with
`'/url?q=h'` and not mentioning the web-cache host, drop the prefix up to the
`h`, cut at the first `'&'`, and percent-decode. -/
def extractLink (href : String) : Option String :=
  if ! listStartsWith href.data "/url?q=h".data then none
  else if containsSub "webcache.googleusercontent.com".data href.data then none
  else some (String.mk (unquoteChars (upToAmp (href.data.drop 7))))

/-- One loop iteration of `google_search_urls` over a raw href. -/
def collectStep (ignore_subdomains : Bool) (links : List String) (href : String) :
    List String :=
  match extractLink href with
  | none => links
  | some new_link => updateLinks links new_link ignore_subdomains

/-- The whole href loop of `google_search_urls`, starting from `links = []`. -/
def collectLinks (hrefs : List String) (ignore_subdomains : Bool) : List String :=
  hrefs.foldl (collectStep ignore_subdomains) []

/-- The Google query URL built by `google_search_urls`: the query parameters
`q` (terms joined by `'+'`) and `start` ((page-1)*10), in insertion order. -/
def googleUrl (search_terms : List String) (page : Int) : String :=
  "https://www.google.com/search?" ++ "q=" ++ String.intercalate "+" search_terms
    ++ "&start=" ++ toString ((page - 1) * 10)

/-- The function `google_search_urls(search_terms, page=1, ignore_subdomains=False)`
of src/scrape.py.  Returns `none` (Python `None`) when the term list is empty or
`page < 1`; otherwise folds the kept-links update over the hrefs the search-page
collaborator (`extract_hrefs`, passed here as `hrefsOf`) returns for the query URL. -/
def google_search_urls (search_terms : List String) (page : Int)
    (ignore_subdomains : Bool) (hrefsOf : String → List String) :
    Option (List String) :=
  if search_terms = [] ∨ page < 1 then none
  else some (collectLinks (hrefsOf (googleUrl search_terms page)) ignore_subdomains)

/-- The function `urls_from_google_search` of src/main.py, which is a verbatim
duplicate of `google_search_urls` in src/scrape.py (with the href loop inlined). -/
def urls_from_google_search (search_terms : List String) (page : Int)
    (ignore_subdomains : Bool) (hrefsOf : String → List String) :
    Option (List String) :=
  google_search_urls search_terms page ignore_subdomains hrefsOf

/-- Character class `[A-Z]` of the postcode pattern. -/
def isUpperAZ (c : Char) : Bool := decide ('A' ≤ c ∧ c ≤ 'Z')

/-- Character class `[0-9]` of the postcode pattern. -/
def isDigit09 (c : Char) : Bool := decide ('0' ≤ c ∧ c ≤ '9')

/-- The regex class `\s` on the ASCII text this program scans. -/
def isWs (c : Char) : Bool :=
  c == ' ' || c == '\t' || c == '\n' || c == '\r' || c == '\x0b' || c == '\x0c'

/-- Match `[0-9][A-Z][A-Z]` (the inward part of the postcode pattern) at the
head of the list, returning the consumed characters and the remainder. -/
def matchInward : List Char → Option (List Char × List Char)
  | e :: f :: g :: rest =>
    if isDigit09 e && isUpperAZ f && isUpperAZ g then some ([e, f, g], rest) else none
  | _ => none

/-- Match `[0-9A-Z]?\s?[0-9][A-Z][A-Z]` at the head of the list, with the
backtracking priority of the Python regex engine: each greedy optional part is
tried consuming first, then skipped. -/
def matchAfterOutward (cs : List Char) : Option (List Char × List Char) :=
  (match cs with
   | c :: rest =>
     if isDigit09 c || isUpperAZ c then
       ((match rest with
         | d :: rest2 =>
           if isWs d then (matchInward rest2).map (fun p => (c :: d :: p.1, p.2)) else none
         | [] => none)
        <|>
        (matchInward rest).map (fun p => (c :: p.1, p.2)))
     else none
   | [] => none)
  <|>
  ((match cs with
    | d :: rest2 =>
      if isWs d then (matchInward rest2).map (fun p => (d :: p.1, p.2)) else none
    | [] => none)
   <|>
   matchInward cs)

/-- Match the full pattern `[A-Z]{1,2}[0-9][0-9A-Z]?\s?[0-9][A-Z][A-Z]`
(src/postcode.py REGEX) at the head of the list, two letters tried before one. -/
def matchPcAt (cs : List Char) : Option (List Char × List Char) :=
  (match cs with
   | a :: b :: rest =>
     if isUpperAZ a && isUpperAZ b then
       (match rest with
        | bd :: rest2 =>
          if isDigit09 bd then
            (matchAfterOutward rest2).map (fun p => (a :: b :: bd :: p.1, p.2))
          else none
        | [] => none)
     else none
   | _ => none)
  <|>
  (match cs with
   | a :: b :: rest =>
     if isUpperAZ a && isDigit09 b then
       (matchAfterOutward rest).map (fun p => (a :: b :: p.1, p.2))
     else none
   | _ => none)

/-- Scan for the leftmost match, skipping one character on failure and resuming
after the match on success, as `re.findall` does for non-overlapping matches.
The fuel starts at the list length, which suffices because every step consumes
at least one character. -/
def findallGo : Nat → List Char → List (List Char)
  | 0, _ => []
  | _ + 1, [] => []
  | fuel + 1, c :: rest =>
    match matchPcAt (c :: rest) with
    | some p => p.1 :: findallGo fuel p.2
    | none => findallGo fuel rest

/-- Python `re.findall(PATTERN, s)` for the postcode pattern. -/
def findall (cs : List Char) : List (List Char) := findallGo cs.length cs

/-- The function `add_spacing` of src/postcode.py: return the string unchanged
if it contains a space, else insert one space before the final 3 characters
(Python `pc[:-3] + ' ' + pc[-3:]`). -/
def add_spacing (pc : String) : String :=
  if ' ' ∈ pc.data then pc
  else String.mk (pc.data.take (pc.data.length - 3) ++ [' '] ++ pc.data.drop (pc.data.length - 3))

/-- The function `add_spacing_to_pc` of src/main.py, a verbatim duplicate of
`add_spacing` in src/postcode.py. -/
def add_spacing_to_pc (pc : String) : String := add_spacing pc

/-- Python `re.match(PATTERN, pc)` viewed as a Boolean: the pattern matches at
the start of the string (`re.match` anchors only on the left). -/
def re_match (pc : String) : Bool := (matchPcAt pc.data).isSome

/-- The string is exactly of the postcode shape: the pattern matches at the
start and the match consumes the whole string. -/
def is_postcode_shaped (pc : String) : Bool :=
  match matchPcAt pc.data with
  | some p => p.2.isEmpty
  | none => false

/-- The `InvalidPostcode` exception of src/postcode.py. -/
inductive InvalidPostcode
  | mk
deriving DecidableEq

/-- The function `sanitize` of src/postcode.py: raise `InvalidPostcode` when
`re.match(PATTERN, pc)` fails, else return `add_spacing(pc)`. -/
def sanitize (pc : String) : Except InvalidPostcode String :=
  if ! re_match pc then Except.error InvalidPostcode.mk
  else Except.ok (add_spacing pc)

/-- Python `set(spaced)` built from a list, represented as the list of first
occurrences (a deterministic representative of the unordered Python set). -/
def setOfList (l : List String) : List String :=
  l.foldl (fun acc x => if x ∈ acc then acc else acc ++ [x]) []

/-- The function `extract_from_string` of src/postcode.py (duplicated as
`pcs_from_string` in src/main.py): all pattern matches in the string, each
passed through `add_spacing`, collected into a set. -/
def extract_from_string (s : String) : List String :=
  setOfList ((findall s.data).map (fun m => add_spacing (String.mk m)))

/-- The function `pcs_from_string` of src/main.py, a verbatim duplicate of
`extract_from_string` in src/postcode.py. -/
def pcs_from_string (s : String) : List String := extract_from_string s

/-- The function `pcs_from_url` of src/main.py (`extract_from_url` in
src/postcode.py): union of the postcode sets extracted from each visible text
fragment of the page.  The page-text collaborator (`texts_from_url`, which
returns `[]` on network failure) is the parameter `texts`. -/
def pcs_from_url (texts : String → List String) (url : String) : List String :=
  (texts url).foldl
    (fun acc t => (extract_from_string t).foldl
      (fun a pc => if pc ∈ a then a else a ++ [pc]) acc) []

/-- The `Result` namedtuple of src/main.py / src/utils.py: a postcode, the URL
it was found on, and its distance from the home postcode. -/
structure Result where
  pc : String
  url : String
  dist : ℚ
deriving DecidableEq

/-- Python `TypeError` exceptions that the pipeline of src/main.py can raise:
iterating `None` when `urls_from_google_search` returns `None`, and evaluating
`None <= dist_limit` when `dist_between_pcs` returns `None`. -/
inductive RunError
  | noneNotIterable
  | noneCompare
deriving DecidableEq

/-- The function `dist_between_pcs` of src/main.py (`distance_between` in
src/postcode.py): query the geocoding collaborator; a NaN reply (modelled as
`none` from the `geo` parameter) is returned as Python `None`. -/
def dist_between_pcs (geo : String → String → Option ℚ) (a b : String) : Option ℚ :=
  match geo a b with
  | none => none
  | some d => some d

/-- The inner loop of `main` (src/main.py lines 167-175) over the postcodes of
one page: skip postcodes already in `pcs_seen`, else record the postcode as
seen, resolve its distance and classify.  A `None` distance reaches the Python
comparison `dist <= dist_limit` and raises `TypeError` (`RunError.noneCompare`);
an out-of-range postcode is only printed, so it leaves no trace in the state. -/
def processPcs (geo : String → String → Option ℚ) (home_pc : String) (dist_limit : ℚ)
    (url : String) :
    List String → List String → List Result → Except RunError (List String × List Result)
  | [], pcs_seen, results => Except.ok (pcs_seen, results)
  | pc :: rest, pcs_seen, results =>
    if pc ∈ pcs_seen then processPcs geo home_pc dist_limit url rest pcs_seen results
    else
      match dist_between_pcs geo pc home_pc with
      | none => Except.error RunError.noneCompare
      | some d =>
        if d ≤ dist_limit then
          processPcs geo home_pc dist_limit url rest (pcs_seen ++ [pc])
            (results ++ [⟨pc, url, d⟩])
        else processPcs geo home_pc dist_limit url rest (pcs_seen ++ [pc]) results

/-- The outer loop of `main` (src/main.py lines 165-175) over the collected
URLs, threading the `pcs_seen` and `results` accumulators. -/
def processUrls (geo : String → String → Option ℚ) (texts : String → List String)
    (home_pc : String) (dist_limit : ℚ) :
    List String → List String → List Result → Except RunError (List String × List Result)
  | [], pcs_seen, results => Except.ok (pcs_seen, results)
  | url :: rest, pcs_seen, results =>
    match processPcs geo home_pc dist_limit url (pcs_from_url texts url) pcs_seen results with
    | Except.error e => Except.error e
    | Except.ok p => processUrls geo texts home_pc dist_limit rest p.1 p.2

namespace Pipeline

/-- The function `main` of src/main.py, parametrized by the run inputs the
specification names (home postcode string, distance limit, search terms) and by
the external collaborators.  The home postcode is passed through
`add_spacing_to_pc` only — `main` never calls `sanitize`.  When
`urls_from_google_search` returns `None`, the Python `for count, url in
enumerate(urls)` raises `TypeError` (`RunError.noneNotIterable`). -/
def main (home_pc_raw : String) (dist_limit : ℚ) (search_terms : List String)
    (hrefsOf : String → List String) (texts : String → List String)
    (geo : String → String → Option ℚ) : Except RunError (List Result) :=
  let home_pc := add_spacing_to_pc home_pc_raw
  match urls_from_google_search search_terms 1 false hrefsOf with
  | none => Except.error RunError.noneNotIterable
  | some urls =>
    match processUrls geo texts home_pc dist_limit urls [] [] with
    | Except.error e => Except.error e
    | Except.ok p => Except.ok p.2

end Pipeline

/-- Stated from the specification's words for comparison with the collector
(claim about suppression-off runs): keep each link whose exact string has not
been kept before, in first-occurrence order; `seen` is the list kept so far. -/
def dedupFirstFrom : List String → List String → List String
  | _, [] => []
  | seen, x :: rest =>
    if x ∈ seen then dedupFirstFrom seen rest
    else x :: dedupFirstFrom (seen ++ [x]) rest

/-- Stated from the specification's words: drop exactly the later duplicates,
keeping first occurrences in their input order. -/
def dedupFirstOccurrence (l : List String) : List String := dedupFirstFrom [] l

/-- The antichain property of the specification: no kept link is a sublink of
another kept link. -/
def linksAntichain (links : List String) : Prop :=
  ∀ x ∈ links, ∀ y ∈ links, x ≠ y → is_sublink_of x y = false

theorem add_spacing_space_mem (pc : String) : ' ' ∈ (add_spacing pc).data := by
  unfold add_spacing
  by_cases h : ' ' ∈ pc.data
  · rw [if_pos h]; exact h
  · rw [if_neg h]
    exact List.mem_append_left _ (List.mem_append_right _ (List.mem_singleton_self ' '))

theorem add_spacing_of_mem {pc : String} (h : ' ' ∈ pc.data) : add_spacing pc = pc := by
  unfold add_spacing
  rw [if_pos h]

theorem add_spacing_idem (pc : String) : add_spacing (add_spacing pc) = add_spacing pc :=
  add_spacing_of_mem (add_spacing_space_mem pc)

theorem mem_foldl_insertNew (l : List String) : ∀ (acc : List String) (x : String),
    x ∈ l.foldl (fun acc y => if y ∈ acc then acc else acc ++ [y]) acc ↔ x ∈ acc ∨ x ∈ l := by
  induction l with
  | nil => intro acc x; simp
  | cons a l ih =>
    intro acc x
    simp only [List.foldl_cons]
    by_cases h : a ∈ acc
    · rw [if_pos h, ih, List.mem_cons]
      constructor
      · rintro (hx | hx)
        · exact Or.inl hx
        · exact Or.inr (Or.inr hx)
      · rintro (hx | rfl | hx)
        · exact Or.inl hx
        · exact Or.inl h
        · exact Or.inr hx
    · rw [if_neg h, ih, List.mem_append, List.mem_singleton, List.mem_cons]
      tauto

theorem setOfList_mem (l : List String) (x : String) : x ∈ setOfList l ↔ x ∈ l := by
  unfold setOfList
  rw [mem_foldl_insertNew]
  simp

/-- C9: postcode normalization is idempotent: for every postcode-shaped string,
applying `add_spacing` twice equals applying it once (and `add_spacing` returns
the string unchanged when it contains a space, else inserts one space before the
final 3 characters, as its definition states). -/
theorem c9_add_spacing_idempotent (pc : String) (_h : is_postcode_shaped pc = true) :
    add_spacing (add_spacing pc) = add_spacing pc :=
  add_spacing_idem pc

theorem c9_add_spacing_idempotent_witness :
    is_postcode_shaped "CB42FY" = true ∧
      add_spacing (add_spacing "CB42FY") = add_spacing "CB42FY" :=
  ⟨by decide, c9_add_spacing_idempotent "CB42FY" (by decide)⟩

/-- C7: extraction is spacing-invariant: every match is normalized before
insertion (every member of the returned set is a fixed point of `add_spacing`),
and the texts `"CB4 2FY"` and `"CB42FY"` both extract to the set
containing exactly `"CB4 2FY"`. -/
theorem c7_extraction_spacing_invariant :
    extract_from_string "CB4 2FY" = ["CB4 2FY"] ∧
      extract_from_string "CB42FY" = ["CB4 2FY"] ∧
      ∀ (s : String) (pc : String), pc ∈ extract_from_string s → add_spacing pc = pc := by
  refine ⟨by decide, by decide, ?_⟩
  intro s pc hmem
  unfold extract_from_string at hmem
  rw [setOfList_mem] at hmem
  rcases List.mem_map.mp hmem with ⟨m, _, rfl⟩
  exact add_spacing_idem (String.mk m)

theorem c7_extraction_spacing_invariant_witness :
    ("CB4 2FY" ∈ extract_from_string "CB42FY") ∧ add_spacing "CB4 2FY" = "CB4 2FY" :=
  ⟨by decide, c7_extraction_spacing_invariant.2.2 "CB42FY" "CB4 2FY" (by decide)⟩

/-- C5: with suppression enabled, a new link that is neither an exact duplicate
nor a sublink of a kept link evicts every kept sublink of itself and is appended
at the end (with `is_sublink_of x y` true iff `x` starts with `y` when `y` ends
in `'/'`, else `x` starts with `y + "/"`). -/
theorem c5_parent_link_evicts_children (links : List String) (new_link : String)
    (h1 : new_link ∉ links) (h2 : ∀ link ∈ links, is_sublink_of new_link link = false) :
    updateLinks links new_link true =
      links.filter (fun link => ! is_sublink_of link new_link) ++ [new_link] := by
  have hany : links.any (fun link => is_sublink_of new_link link) = false := by
    rw [List.any_eq_false]
    intro x hx
    simp [h2 x hx]
  simp [updateLinks, h1, hany]

theorem c5_parent_link_evicts_children_witness :
    ("https://a.com" ∉ (["https://a.com/sub"] : List String)) ∧
      updateLinks ["https://a.com/sub"] "https://a.com" true =
        (["https://a.com/sub"] : List String).filter
            (fun link => ! is_sublink_of link "https://a.com") ++ ["https://a.com"] ∧
      updateLinks ["https://a.com/sub"] "https://a.com" true = ["https://a.com"] :=
  ⟨by decide, c5_parent_link_evicts_children _ _ (by decide) (by decide), by decide⟩

/-- C10: a raw link whose decoded, query-stripped form equals an already-kept
link leaves the kept list unchanged, for either value of the suppression flag:
the exact-duplicate check precedes the suppression step, so no eviction and no
append happens. -/
theorem c10_exact_duplicate_is_noop (ignore_subdomains : Bool) (links : List String)
    (href new_link : String) (he : extractLink href = some new_link)
    (hm : new_link ∈ links) :
    collectStep ignore_subdomains links href = links := by
  simp [collectStep, he, updateLinks, hm]

theorem c10_exact_duplicate_is_noop_witness :
    extractLink "/url?q=https://a.com&sa=U" = some "https://a.com" ∧
      ("https://a.com" ∈ ["https://a.com/x", "https://a.com"]) ∧
      collectStep true ["https://a.com/x", "https://a.com"] "/url?q=https://a.com&sa=U" =
        ["https://a.com/x", "https://a.com"] :=
  ⟨by decide, by decide,
    c10_exact_duplicate_is_noop true ["https://a.com/x", "https://a.com"]
      "/url?q=https://a.com&sa=U" "https://a.com" (by decide) (by decide)⟩

/-- C1 counterexample: a run in which the distance resolver returns the unknown
sample (`None`) for the newly seen postcode `"AB1 2CD"` does not continue
silently — it terminates with the `TypeError` raised by `None <= dist_limit`. -/
theorem c1_unknown_distance_counterexample :
    Pipeline.main "CB4 2FY" 20 ["parks"] (fun _ => ["/url?q=https://x.com&sa=U"])
        (fun _ => ["AB1 2CD"]) (fun _ _ => none) =
      Except.error RunError.noneCompare := by
  rfl

/-- C1 amended: when the distance resolver returns `None` for a newly seen
postcode, the postcode produces no Result and no classification, but the
pipeline does not continue: evaluating `dist <= dist_limit` with `dist = None`
raises a `TypeError` that aborts the run. -/
theorem c1_unknown_distance_raises (geo : String → String → Option ℚ)
    (home_pc : String) (dist_limit : ℚ) (url pc : String)
    (rest pcs_seen : List String) (results : List Result)
    (hnew : pc ∉ pcs_seen) (hnone : dist_between_pcs geo pc home_pc = none) :
    processPcs geo home_pc dist_limit url (pc :: rest) pcs_seen results =
      Except.error RunError.noneCompare := by
  simp [processPcs, hnew, hnone]

theorem c1_unknown_distance_raises_witness :
    ("ZZ1 1ZZ" ∉ ([] : List String)) ∧
      dist_between_pcs (fun _ _ => none) "ZZ1 1ZZ" "CB4 2FY" = none ∧
      processPcs (fun _ _ => none) "CB4 2FY" 20 "https://x.com" ["ZZ1 1ZZ"] [] [] =
        Except.error RunError.noneCompare :=
  ⟨by decide, rfl,
    c1_unknown_distance_raises (fun _ _ => none) "CB4 2FY" 20 "https://x.com" "ZZ1 1ZZ"
      [] [] [] (by decide) rfl⟩

/-- C2 counterexample: a run with an empty search-term list does not terminate
normally with zero results — `urls_from_google_search` returns `None` and the
pipeline raises the `TypeError` of iterating `None`. -/
theorem c2_empty_query_counterexample :
    Pipeline.main "CB4 2FY" 20 [] (fun _ => []) (fun _ => []) (fun _ _ => some 1) =
        Except.error RunError.noneNotIterable ∧
      ∀ results : List Result,
        Pipeline.main "CB4 2FY" 20 [] (fun _ => []) (fun _ => []) (fun _ _ => some 1) ≠
          Except.ok results := by
  refine ⟨rfl, fun results h => ?_⟩
  have h2 : (Except.error RunError.noneNotIterable : Except RunError (List Result)) =
      Except.ok results := h
  exact Except.noConfusion h2

/-- C2 amended: for an empty search-term list or a page number below 1 the
search collaborator signals no results by returning `None`; the pipeline does
not treat that as zero links — iterating the `None` value raises a `TypeError`,
so the run ends abnormally (with no results). -/
theorem c2_no_results_signal :
    (∀ (page : Int) (flag : Bool) (hrefsOf : String → List String),
        google_search_urls [] page flag hrefsOf = none) ∧
      (∀ (terms : List String) (page : Int) (flag : Bool)
          (hrefsOf : String → List String),
        page < 1 → google_search_urls terms page flag hrefsOf = none) ∧
      (∀ (home : String) (dl : ℚ) (hrefsOf texts : String → List String)
          (geo : String → String → Option ℚ),
        Pipeline.main home dl [] hrefsOf texts geo =
          Except.error RunError.noneNotIterable) := by
  refine ⟨?_, ?_, ?_⟩
  · intro page flag hrefsOf
    simp [google_search_urls]
  · intro terms page flag hrefsOf hp
    simp [google_search_urls, hp]
  · intro home dl hrefsOf texts geo
    rfl

theorem c2_no_results_signal_witness :
    ((0 : Int) < 1) ∧ google_search_urls ["parks"] 0 false (fun _ => []) = none :=
  ⟨by decide, c2_no_results_signal.2.1 ["parks"] 0 false (fun _ => []) (by decide)⟩

/-- C3 counterexample: the home postcode string `"1234"` does not match the
postcode shape, yet the run raises no `InvalidPostcode` error and does not
abort before network activity: it consumes the collaborators' pages and
finishes with a Result. -/
theorem c3_no_validation_counterexample :
    re_match "1234" = false ∧
      Pipeline.main "1234" 20 ["t"] (fun _ => ["/url?q=https://x.com&sa"])
          (fun _ => ["AB1 2CD"]) (fun _ _ => some 5) =
        Except.ok [⟨"AB1 2CD", "https://x.com", 5⟩] :=
  ⟨by decide, by rfl⟩

/-- C3 amended: the library function `sanitize` (src/postcode.py) raises
`InvalidPostcode` exactly when the pattern does not match at the start of the
string and otherwise returns the normalized postcode — but the pipeline never
calls it: `main` only applies `add_spacing_to_pc` to the home postcode, so a
run behaves identically to one given the pre-normalized string and no home
postcode is ever rejected. -/
theorem c3_sanitize_unused_by_pipeline :
    (∀ pc : String, sanitize pc = Except.error InvalidPostcode.mk ↔ re_match pc = false) ∧
      (∀ pc : String, re_match pc = true → sanitize pc = Except.ok (add_spacing pc)) ∧
      (∀ (home : String) (dl : ℚ) (terms : List String)
          (hrefsOf texts : String → List String) (geo : String → String → Option ℚ),
        Pipeline.main home dl terms hrefsOf texts geo =
          Pipeline.main (add_spacing_to_pc home) dl terms hrefsOf texts geo) := by
  refine ⟨?_, ?_, ?_⟩
  · intro pc
    cases hr : re_match pc <;> simp [sanitize, hr]
  · intro pc hr
    simp [sanitize, hr]
  · intro home dl terms hrefsOf texts geo
    simp only [Pipeline.main, add_spacing_to_pc, add_spacing_idem]

theorem c3_sanitize_unused_by_pipeline_witness :
    re_match "CB42FY" = true ∧ sanitize "CB42FY" = Except.ok (add_spacing "CB42FY") :=
  ⟨by decide, c3_sanitize_unused_by_pipeline.2.1 "CB42FY" (by decide)⟩

theorem append_singleton_nodup (l : List String) (x : String) (hl : l.Nodup)
    (hx : x ∉ l) : (l ++ [x]).Nodup := by
  refine List.Nodup.append hl (List.nodup_singleton _) ?_
  intro a ha ha2
  rw [List.mem_singleton] at ha2
  subst ha2
  exact hx ha

theorem updateLinks_nodup (links : List String) (new_link : String) (flag : Bool)
    (h : links.Nodup) : (updateLinks links new_link flag).Nodup := by
  by_cases hm : new_link ∈ links
  · simpa [updateLinks, hm] using h
  · cases flag with
    | false => simpa [updateLinks, hm] using append_singleton_nodup links new_link h hm
    | true =>
      by_cases ha : links.any (fun link => is_sublink_of new_link link) = true
      · simpa [updateLinks, hm, ha] using h
      · have hfil : (links.filter (fun link => ! is_sublink_of link new_link)).Nodup :=
          h.filter _
        have hnl : new_link ∉ links.filter (fun link => ! is_sublink_of link new_link) :=
          fun hx => hm (List.mem_of_mem_filter hx)
        simpa [updateLinks, hm, ha] using append_singleton_nodup _ new_link hfil hnl

theorem updateLinks_antichain (links : List String) (new_link : String)
    (h : linksAntichain links) : linksAntichain (updateLinks links new_link true) := by
  by_cases hm : new_link ∈ links
  · simpa [updateLinks, hm] using h
  · by_cases ha : links.any (fun link => is_sublink_of new_link link) = true
    · simpa [updateLinks, hm, ha] using h
    · have hnosub : ∀ link ∈ links, is_sublink_of new_link link = false := by
        intro link hl
        cases hb : is_sublink_of new_link link
        · rfl
        · exact absurd (List.any_eq_true.mpr ⟨link, hl, hb⟩) ha
      have hval : updateLinks links new_link true =
          links.filter (fun link => ! is_sublink_of link new_link) ++ [new_link] := by
        simp [updateLinks, hm, ha]
      rw [hval]
      intro x hx y hy hxy
      rcases List.mem_append.mp hx with hx1 | hx1 <;>
        rcases List.mem_append.mp hy with hy1 | hy1
      · exact h x (List.mem_of_mem_filter hx1) y (List.mem_of_mem_filter hy1) hxy
      · rw [List.mem_singleton] at hy1
        subst hy1
        simpa using List.of_mem_filter hx1
      · rw [List.mem_singleton] at hx1
        subst hx1
        exact hnosub y (List.mem_of_mem_filter hy1)
      · rw [List.mem_singleton] at hx1
        rw [List.mem_singleton] at hy1
        subst hx1
        subst hy1
        exact absurd rfl hxy

theorem collect_inv (flag : Bool) (hrefs : List String) :
    ∀ acc : List String, acc.Nodup → (flag = true → linksAntichain acc) →
      (hrefs.foldl (collectStep flag) acc).Nodup ∧
        (flag = true → linksAntichain (hrefs.foldl (collectStep flag) acc)) := by
  induction hrefs with
  | nil => intro acc h1 h2; exact ⟨h1, h2⟩
  | cons href rest ih =>
    intro acc h1 h2
    simp only [List.foldl_cons]
    have hstep1 : (collectStep flag acc href).Nodup := by
      rcases he : extractLink href with _ | nl
      · simpa [collectStep, he] using h1
      · simpa [collectStep, he] using updateLinks_nodup acc nl flag h1
    have hstep2 : flag = true → linksAntichain (collectStep flag acc href) := by
      intro hf
      subst hf
      rcases he : extractLink href with _ | nl
      · simpa [collectStep, he] using h2 rfl
      · simpa [collectStep, he] using updateLinks_antichain acc nl (h2 rfl)
    exact ih _ hstep1 hstep2

theorem google_search_urls_some (search_terms : List String) (page : Int) (flag : Bool)
    (hrefsOf : String → List String) (links : List String)
    (hc : google_search_urls search_terms page flag hrefsOf = some links) :
    links = collectLinks (hrefsOf (googleUrl search_terms page)) flag := by
  unfold google_search_urls at hc
  by_cases hcond : search_terms = [] ∨ page < 1
  · rw [if_pos hcond] at hc
    exact absurd hc (by simp)
  · rw [if_neg hcond] at hc
    exact (Option.some.inj hc).symm

/-- C4: for every run of the link collector, the kept-links list is pairwise
distinct, and when `ignore_subdomains` is true it is additionally an antichain
under `is_sublink_of`; the same invariant holds after processing every prefix
of the input hrefs. -/
theorem c4_kept_links_invariant (search_terms : List String) (page : Int) (flag : Bool)
    (hrefsOf : String → List String) (links : List String)
    (hc : google_search_urls search_terms page flag hrefsOf = some links) :
    (links.Nodup ∧ (flag = true → linksAntichain links)) ∧
      ∀ n : Nat,
        (collectLinks ((hrefsOf (googleUrl search_terms page)).take n) flag).Nodup ∧
          (flag = true →
            linksAntichain
              (collectLinks ((hrefsOf (googleUrl search_terms page)).take n) flag)) := by
  have hbase : ∀ l : List String,
      (collectLinks l flag).Nodup ∧ (flag = true → linksAntichain (collectLinks l flag)) := by
    intro l
    refine collect_inv flag l [] List.nodup_nil ?_
    intro _ x hx
    exact absurd hx (List.not_mem_nil x)
  constructor
  · rw [google_search_urls_some search_terms page flag hrefsOf links hc]
    exact hbase _
  · intro n
    exact hbase _

theorem c4_kept_links_invariant_witness :
    (google_search_urls ["parks"] 1 true
        (fun _ => ["/url?q=https://a.com/x&s", "/url?q=https://b.com&s",
          "/url?q=https://a.com&s"]) =
      some ["https://b.com", "https://a.com"]) ∧
      (["https://b.com", "https://a.com"] : List String).Nodup ∧
      (true = true → linksAntichain ["https://b.com", "https://a.com"]) :=
  ⟨by rfl,
    (c4_kept_links_invariant ["parks"] 1 true
      (fun _ => ["/url?q=https://a.com/x&s", "/url?q=https://b.com&s",
        "/url?q=https://a.com&s"]) ["https://b.com", "https://a.com"] (by rfl)).1⟩

theorem foldl_collectStep (flag : Bool) (hrefs : List String) :
    ∀ acc : List String,
      hrefs.foldl (collectStep flag) acc =
        (hrefs.filterMap extractLink).foldl (fun l n => updateLinks l n flag) acc := by
  induction hrefs with
  | nil => intro acc; rfl
  | cons href rest ih =>
    intro acc
    rcases he : extractLink href with _ | nl
    · rw [List.foldl_cons, List.filterMap_cons_none he, ih]
      simp [collectStep, he]
    · rw [List.foldl_cons, List.filterMap_cons_some he, List.foldl_cons, ih]
      simp [collectStep, he]

theorem foldl_updateLinks_false (l : List String) :
    ∀ acc : List String,
      l.foldl (fun a n => updateLinks a n false) acc = acc ++ dedupFirstFrom acc l := by
  induction l with
  | nil => intro acc; simp [dedupFirstFrom]
  | cons x rest ih =>
    intro acc
    by_cases hm : x ∈ acc
    · rw [List.foldl_cons, show updateLinks acc x false = acc from by simp [updateLinks, hm],
        ih]
      simp [dedupFirstFrom, hm]
    · rw [List.foldl_cons,
        show updateLinks acc x false = acc ++ [x] from by simp [updateLinks, hm], ih]
      simp [dedupFirstFrom, hm]

/-- C8: with subdomain suppression disabled the collector drops exactly the
later exact duplicates: the kept list equals the decoded, query-stripped links
deduplicated to their first occurrences, preserving input order. -/
theorem c8_no_suppression_keeps_first_occurrences (search_terms : List String)
    (page : Int) (hrefsOf : String → List String) (links : List String)
    (hc : google_search_urls search_terms page false hrefsOf = some links) :
    links =
      dedupFirstOccurrence
        ((hrefsOf (googleUrl search_terms page)).filterMap extractLink) := by
  rw [google_search_urls_some search_terms page false hrefsOf links hc]
  unfold collectLinks dedupFirstOccurrence
  rw [foldl_collectStep, foldl_updateLinks_false]
  simp

theorem c8_no_suppression_keeps_first_occurrences_witness :
    (google_search_urls ["parks"] 1 false
        (fun _ => ["/url?q=https://a.com&s", "/url?q=https://a.com&t",
          "/url?q=https://b.com&s"]) =
      some ["https://a.com", "https://b.com"]) ∧
      ["https://a.com", "https://b.com"] =
        dedupFirstOccurrence
          ((["/url?q=https://a.com&s", "/url?q=https://a.com&t",
            "/url?q=https://b.com&s"] : List String).filterMap extractLink) :=
  ⟨by rfl,
    c8_no_suppression_keeps_first_occurrences ["parks"] 1
      (fun _ => ["/url?q=https://a.com&s", "/url?q=https://a.com&t",
        "/url?q=https://b.com&s"]) ["https://a.com", "https://b.com"] (by rfl)⟩

theorem processPcs_ok (geo : String → String → Option ℚ) (home_pc : String) (dl : ℚ)
    (url : String) (pcs : List String) :
    ∀ (pcs_seen : List String) (results : List Result) (seen2 : List String)
      (res2 : List Result),
      processPcs geo home_pc dl url pcs pcs_seen results = Except.ok (seen2, res2) →
      (∀ x, x ∈ seen2 ↔ (x ∈ pcs_seen ∨ x ∈ pcs)) ∧
        ∃ extra : List Result,
          res2 = results ++ extra ∧
            (∀ r ∈ extra, r.url = url ∧ r.pc ∈ pcs ∧ r.pc ∉ pcs_seen) ∧
            (extra.map Result.pc).Nodup := by
  induction pcs with
  | nil =>
    intro seen res seen2 res2 h
    simp only [processPcs, Except.ok.injEq, Prod.mk.injEq] at h
    obtain ⟨rfl, rfl⟩ := h
    refine ⟨by simp, [], by simp, by simp, by simp⟩
  | cons pc rest ih =>
    intro seen res seen2 res2 h
    simp only [processPcs] at h
    by_cases hm : pc ∈ seen
    · rw [if_pos hm] at h
      obtain ⟨hseen, extra, hres, hprops, hnodup⟩ := ih seen res seen2 res2 h
      refine ⟨?_, extra, hres, ?_, hnodup⟩
      · intro x
        rw [hseen x, List.mem_cons]
        constructor
        · rintro (hx | hx)
          · exact Or.inl hx
          · exact Or.inr (Or.inr hx)
        · rintro (hx | rfl | hx)
          · exact Or.inl hx
          · exact Or.inl hm
          · exact Or.inr hx
      · intro r hr
        obtain ⟨h1, h2, h3⟩ := hprops r hr
        exact ⟨h1, List.mem_cons_of_mem _ h2, h3⟩
    · rw [if_neg hm] at h
      split at h
      · exact absurd h (by simp)
      · rename_i d hd
        by_cases hle : d ≤ dl
        · rw [if_pos hle] at h
          obtain ⟨hseen, extra, hres, hprops, hnodup⟩ :=
            ih (seen ++ [pc]) (res ++ [⟨pc, url, d⟩]) seen2 res2 h
          refine ⟨?_, ⟨pc, url, d⟩ :: extra, ?_, ?_, ?_⟩
          · intro x
            rw [hseen x, List.mem_append, List.mem_singleton, List.mem_cons]
            tauto
          · rw [hres, List.append_assoc, List.singleton_append]
          · intro r hr
            rcases List.mem_cons.mp hr with rfl | hr
            · exact ⟨rfl, List.mem_cons_self _ _, hm⟩
            · obtain ⟨h1, h2, h3⟩ := hprops r hr
              exact ⟨h1, List.mem_cons_of_mem _ h2,
                fun hx => h3 (List.mem_append_left _ hx)⟩
          · rw [List.map_cons]
            refine List.nodup_cons.mpr ⟨?_, hnodup⟩
            intro hx
            rcases List.mem_map.mp hx with ⟨r, hr, hpc⟩
            obtain ⟨_, _, h3⟩ := hprops r hr
            refine h3 (List.mem_append_right _ ?_)
            rw [hpc]
            exact List.mem_singleton_self pc
        · rw [if_neg hle] at h
          obtain ⟨hseen, extra, hres, hprops, hnodup⟩ :=
            ih (seen ++ [pc]) res seen2 res2 h
          refine ⟨?_, extra, hres, ?_, hnodup⟩
          · intro x
            rw [hseen x, List.mem_append, List.mem_singleton, List.mem_cons]
            tauto
          · intro r hr
            obtain ⟨h1, h2, h3⟩ := hprops r hr
            exact ⟨h1, List.mem_cons_of_mem _ h2,
              fun hx => h3 (List.mem_append_left _ hx)⟩

theorem processUrls_ok (geo : String → String → Option ℚ) (texts : String → List String)
    (home_pc : String) (dl : ℚ) (rem : List String) :
    ∀ (done seen : List String) (res : List Result) (seen2 : List String)
      (res2 : List Result),
      (∀ x, x ∈ seen ↔ ∃ u ∈ done, x ∈ pcs_from_url texts u) →
      (res.map Result.pc).Nodup →
      (∀ r ∈ res, done.find? (fun u => decide (r.pc ∈ pcs_from_url texts u)) = some r.url) →
      (∀ r ∈ res, r.pc ∈ seen) →
      processUrls geo texts home_pc dl rem seen res = Except.ok (seen2, res2) →
      (res2.map Result.pc).Nodup ∧
        ∀ r ∈ res2,
          (done ++ rem).find? (fun u => decide (r.pc ∈ pcs_from_url texts u)) = some r.url := by
  induction rem with
  | nil =>
    intro done seen res seen2 res2 ha hb hc hd h
    simp only [processUrls, Except.ok.injEq, Prod.mk.injEq] at h
    obtain ⟨rfl, rfl⟩ := h
    refine ⟨hb, ?_⟩
    intro r hr
    rw [List.append_nil]
    exact hc r hr
  | cons u rem ih =>
    intro done seen res seen2 res2 ha hb hc hd h
    simp only [processUrls] at h
    split at h
    · exact absurd h (by simp)
    · rename_i p hp
      obtain ⟨p1, p2⟩ := p
      obtain ⟨hseen, extra, hres, hprops, hnodup⟩ :=
        processPcs_ok geo home_pc dl u (pcs_from_url texts u) seen res p1 p2 hp
      have ha2 : ∀ x, x ∈ p1 ↔ ∃ v ∈ done ++ [u], x ∈ pcs_from_url texts v := by
        intro x
        rw [hseen x]
        constructor
        · rintro (hx | hx)
          · obtain ⟨v, hv, hxv⟩ := (ha x).mp hx
            exact ⟨v, List.mem_append_left _ hv, hxv⟩
          · exact ⟨u, List.mem_append_right _ (List.mem_singleton_self u), hx⟩
        · rintro ⟨v, hv, hxv⟩
          rcases List.mem_append.mp hv with hv1 | hv1
          · exact Or.inl ((ha x).mpr ⟨v, hv1, hxv⟩)
          · rw [List.mem_singleton] at hv1
            subst hv1
            exact Or.inr hxv
      have hb2 : (p2.map Result.pc).Nodup := by
        rw [hres, List.map_append]
        refine List.Nodup.append hb hnodup ?_
        intro a haa hab
        rcases List.mem_map.mp haa with ⟨r, hr, rfl⟩
        rcases List.mem_map.mp hab with ⟨r2, hr2, heq⟩
        obtain ⟨_, _, h3⟩ := hprops r2 hr2
        rw [heq] at h3
        exact h3 (hd r hr)
      have hc2 : ∀ r ∈ p2,
          (done ++ [u]).find? (fun v => decide (r.pc ∈ pcs_from_url texts v)) =
            some r.url := by
        intro r hr
        rw [hres] at hr
        rcases List.mem_append.mp hr with hr1 | hr1
        · rw [List.find?_append, hc r hr1]
          rfl
        · obtain ⟨h1, h2, h3⟩ := hprops r hr1
          have hnone : done.find? (fun v => decide (r.pc ∈ pcs_from_url texts v)) =
              none := by
            rw [List.find?_eq_none]
            intro v hv hpv
            rw [decide_eq_true_eq] at hpv
            exact h3 ((ha r.pc).mpr ⟨v, hv, hpv⟩)
          rw [List.find?_append, hnone, Option.none_or,
            List.find?_cons_of_pos _ (by rw [decide_eq_true_eq]; exact h2), h1]
      have hd2 : ∀ r ∈ p2, r.pc ∈ p1 := by
        intro r hr
        rw [hres] at hr
        rcases List.mem_append.mp hr with hr1 | hr1
        · exact (hseen _).mpr (Or.inl (hd r hr1))
        · obtain ⟨_, h2, _⟩ := hprops r hr1
          exact (hseen _).mpr (Or.inr h2)
      have hfin := ih (done ++ [u]) p1 p2 seen2 res2 ha2 hb2 hc2 hd2 h
      rw [List.append_assoc, List.singleton_append] at hfin
      exact hfin

/-- C6: across one run, each distinct normalized postcode produces at most one
Result (the postcode column of the result list has no duplicates), and every
Result's source URL is the first collected link, in order, whose page contains
that postcode. -/
theorem c6_one_result_per_postcode (home : String) (dl : ℚ) (terms : List String)
    (hrefsOf texts : String → List String) (geo : String → String → Option ℚ)
    (links : List String) (results : List Result)
    (hl : urls_from_google_search terms 1 false hrefsOf = some links)
    (hm : Pipeline.main home dl terms hrefsOf texts geo = Except.ok results) :
    (results.map Result.pc).Nodup ∧
      ∀ r ∈ results,
        links.find? (fun u => decide (r.pc ∈ pcs_from_url texts u)) = some r.url := by
  unfold Pipeline.main at hm
  rw [hl] at hm
  split at hm
  · exact absurd hm (by simp)
  · rename_i urls heq
    obtain rfl : links = urls := Option.some.inj heq
    simp only [] at hm
    split at hm
    · exact absurd hm (by simp)
    · rename_i p hp
      obtain ⟨p1, p2⟩ := p
      simp only [Except.ok.injEq] at hm
      subst hm
      have hfin := processUrls_ok geo texts (add_spacing_to_pc home) dl links [] [] []
        p1 p2 (by intro x; simp) (by simp) (by intro r hr; simp at hr)
        (by intro r hr; simp at hr) hp
      rw [List.nil_append] at hfin
      exact hfin

theorem c6_one_result_per_postcode_witness :
    ((([⟨"AB1 2CD", "https://x.com", 5⟩, ⟨"ZZ3 4XY", "https://y.com", 5⟩] :
        List Result).map Result.pc).Nodup ∧
      ∀ r ∈ ([⟨"AB1 2CD", "https://x.com", 5⟩, ⟨"ZZ3 4XY", "https://y.com", 5⟩] :
          List Result),
        (["https://x.com", "https://y.com"] : List String).find?
            (fun u => decide (r.pc ∈ pcs_from_url
              (fun v => if v = "https://x.com" then ["AB1 2CD here"]
                else ["AB1 2CD", "ZZ3 4XY"]) u)) =
          some r.url) :=
  c6_one_result_per_postcode "CB4 2FY" 20 ["parks"]
    (fun _ => ["/url?q=https://x.com&a", "/url?q=https://y.com&a"])
    (fun v => if v = "https://x.com" then ["AB1 2CD here"] else ["AB1 2CD", "ZZ3 4XY"])
    (fun _ _ => some 5) ["https://x.com", "https://y.com"]
    [⟨"AB1 2CD", "https://x.com", 5⟩, ⟨"ZZ3 4XY", "https://y.com", 5⟩]
    (by rfl) (by rfl)
